import Mathlib

/-!
Verification development for the rust-git-issue library: a shallow embedding
of the transactional write layer, the property store (tags/milestone files),
the identifier resolver and the transaction coordinator, together with
theorems about the claims made by the specification.

Conventions of the embedding:
* file contents and identifiers are Lean `String`s; string comparison is the
  lexicographic order on the underlying character list, which coincides with
  the byte order Rust uses on UTF-8 strings;
* filesystem reads/writes become pure state passing over explicit structures;
* the git primitives (reset, merge, stash, commit) are external collaborators:
  their success or failure is supplied by a `GitEnv` oracle and their effect on
  the repository is modelled by explicit functions on a `Repo` state;
* Rust panics (calls to `expect`) are modelled by a distinguished
  `TxResult.panicked` outcome.
-/

namespace GitIssue

/-- Lexicographic order on strings via their character data
(matches Rust byte order for UTF-8 encoded strings). -/
def strLe (a b : String) : Prop := a.data ≤ b.data

/-- Strict lexicographic order on strings via their character data. -/
def strLt (a b : String) : Prop := a.data < b.data

instance : DecidableRel strLe := fun a b => inferInstanceAs (Decidable (a.data ≤ b.data))

instance : DecidableRel strLt := fun a b => inferInstanceAs (Decidable (a.data < b.data))

instance : IsTrans String strLe := ⟨fun _ _ _ h h' => le_trans h h'⟩

instance : IsTotal String strLe := ⟨fun a b => le_total a.data b.data⟩

instance : IsTrans String strLt := ⟨fun _ _ _ h h' => lt_trans h h'⟩

instance : IsIrrefl String strLt := ⟨fun _ h => lt_irrefl _ h⟩

theorem strData_inj {s t : String} (h : s.data = t.data) : s = t := by
  cases s; cases t; exact congrArg String.mk h

theorem strLe.antisymm {a b : String} (h : strLe a b) (h' : strLe b a) : a = b :=
  strData_inj (le_antisymm h h')

theorem strLt_of_strLe_ne {a b : String} (h : strLe a b) (h' : a ≠ b) : strLt a b :=
  lt_of_le_of_ne h (fun hd => h' (strData_inj hd))

/-- Splits a character list at every newline character; every input produces at
least one (possibly empty) piece.  The accumulator holds the current piece in
reverse. -/
def splitNlAux : List Char → List Char → List String
  | [], acc => [String.mk acc.reverse]
  | c :: cs, acc =>
    if c = '\n' then String.mk acc.reverse :: splitNlAux cs []
    else splitNlAux cs (c :: acc)

/-- All pieces of a string split at newline characters, including a trailing
empty piece when the string ends in a newline. -/
def rustSplitRaw (s : String) : List String := splitNlAux s.data []

/-- Removes a single trailing carriage return, as Rust's line iterator does. -/
def stripCr (s : String) : String :=
  if s.data.getLast? = some '\r' then String.mk s.data.dropLast else s

/-- Drops the final piece when it is empty (a trailing newline terminates the
last line instead of opening a new one). -/
def dropLastEmpty (parts : List String) : List String :=
  if parts.getLast? = some "" then parts.dropLast else parts

/-- Embedding of Rust's str::lines(): split at newline characters, treat a
trailing newline as a terminator, strip one trailing carriage return from each
line. -/
def rustLines (s : String) : List String := (dropLastEmpty (rustSplitRaw s)).map stripCr

/-- Joins strings with a newline separator: Rust's slice join("\n"). -/
def joinNl : List String → String
  | [] => ""
  | [s] => s
  | s :: rest => s ++ "\n" ++ joinNl rest

/-- Whether a string contains no newline character. -/
def noNl (s : String) : Prop := '\n' ∉ s.data

/-- Whether a string does not end in a carriage return. -/
def noTrailCr (s : String) : Prop := s.data.getLast? ≠ some '\r'

instance (s : String) : Decidable (noNl s) := inferInstanceAs (Decidable ('\n' ∉ s.data))

instance (s : String) : Decidable (noTrailCr s) :=
  inferInstanceAs (Decidable (s.data.getLast? ≠ some '\r'))

/-- The choice between adding and removing a value, as in the source's
Action enum. -/
inductive Action where
  | Add : Action
  | Remove : Action
deriving DecidableEq, Repr

/-- Result of a requested data change, as in the source's WriteResult enum:
either the change was applied or it was redundant. -/
inductive WriteResult where
  | Applied : WriteResult
  | NoChanges : WriteResult
deriving DecidableEq, Repr

/-- Aggregation of several write results (the From Vec impl in source.rs):
Applied as soon as one element is Applied, NoChanges otherwise. -/
def WriteResult.ofList (l : List WriteResult) : WriteResult :=
  if l.any (fun r => r == .Applied) then .Applied else .NoChanges

/-- The lines the tag-write branch of write_to_file starts from: the lines of
the existing tags file, or the empty list when the file is absent. -/
def tagFileLines (existing : Option String) : List String :=
  match existing with
  | some v => rustLines v
  | none => []

/-- The single-tag mutation applied before normalization: Add pushes the tag at
the end, Remove retains every element different from the tag. -/
def applyTagAction (tags : List String) (action : Action) (tag : String) : List String :=
  match action with
  | .Add => tags ++ [tag]
  | .Remove => tags.filter (fun t => t ≠ tag)

/-- Sorting of the tag list: Rust's sort_unstable under the byte order (a sort
of strings under a total order is unique, so any correct sort models it). -/
def sortUnstable (l : List String) : List String := List.insertionSort strLe l

/-- Rust's Vec::dedup: removes consecutive repeated elements. -/
def vecDedup (l : List String) : List String := l.destutter (· ≠ ·)

/-- The tag list persisted by the Tag branch of write_to_file: apply the single
action, sort ascending, dedup. -/
def writeTagLines (existing : Option String) (action : Action) (tag : String) : List String :=
  vecDedup (sortUnstable (applyTagAction (tagFileLines existing) action tag))

/-- The file contents persisted by the Tag branch of write_to_file:
one tag per line plus a trailing newline. -/
def writeTagFileContent (existing : Option String) (action : Action) (tag : String) : String :=
  joinNl (writeTagLines existing action tag) ++ "\n"

theorem sortUnstable_sorted (l : List String) : (sortUnstable l).Sorted strLe :=
  List.sorted_insertionSort strLe l

theorem sortUnstable_perm (l : List String) : (sortUnstable l).Perm l :=
  List.perm_insertionSort strLe l

theorem mem_sortUnstable {x : String} {l : List String} :
    x ∈ sortUnstable l ↔ x ∈ l := (sortUnstable_perm l).mem_iff

theorem vecDedup_sublist (l : List String) : (vecDedup l).Sublist l :=
  List.destutter_sublist (· ≠ ·) l

theorem vecDedup_chain_ne (l : List String) : (vecDedup l).Chain' (· ≠ ·) :=
  List.destutter_is_chain' (· ≠ ·) l

theorem vecDedup_subset {x : String} {l : List String} (h : x ∈ vecDedup l) : x ∈ l :=
  (vecDedup_sublist l).subset h

/-- Deduplicating a weakly sorted list yields a strictly sorted list. -/
theorem vecDedup_sorted_strict {l : List String} (h : l.Sorted strLe) :
    (vecDedup l).Sorted strLt := by
  have hsort : (vecDedup l).Sorted strLe := h.sublist (vecDedup_sublist l)
  have hchain : (vecDedup l).Chain' strLt := by
    have hle : (vecDedup l).Chain' strLe := hsort.chain'
    have hne := vecDedup_chain_ne l
    revert hle hne
    induction vecDedup l with
    | nil => intro _ _; exact List.chain'_nil
    | cons a rest ih =>
      intro hle hne
      cases rest with
      | nil => exact List.chain'_singleton a
      | cons b rest' =>
        rw [List.chain'_cons] at hle hne ⊢
        exact ⟨strLt_of_strLe_ne hle.1 hne.1, ih hle.2 hne.2⟩
  exact List.chain'_iff_pairwise.mp hchain

/-- The persisted tag list is always strictly sorted ascending. -/
theorem writeTagLines_sorted (existing : Option String) (action : Action) (tag : String) :
    (writeTagLines existing action tag).Sorted strLt :=
  vecDedup_sorted_strict (sortUnstable_sorted _)

/-- The persisted tag list never holds duplicates. -/
theorem writeTagLines_nodup (existing : Option String) (action : Action) (tag : String) :
    (writeTagLines existing action tag).Nodup :=
  (writeTagLines_sorted existing action tag).nodup

theorem mem_writeTagLines {x : String} {existing : Option String} {action : Action}
    {tag : String} (h : x ∈ writeTagLines existing action tag) :
    x ∈ tagFileLines existing ∨ x = tag := by
  have hx : x ∈ applyTagAction (tagFileLines existing) action tag :=
    mem_sortUnstable.mp (vecDedup_subset h)
  cases action with
  | Add =>
    rcases List.mem_append.mp hx with h1 | h1
    · exact Or.inl h1
    · exact Or.inr (List.mem_singleton.mp h1)
  | Remove => exact Or.inl (List.mem_filter.mp hx).1

theorem mk_data (s : String) : String.mk s.data = s := rfl

theorem data_mk (l : List Char) : (String.mk l).data = l := rfl

theorem splitNlAux_noNl (cs : List Char) (acc : List Char) (h : '\n' ∉ cs) :
    splitNlAux cs acc = [String.mk (acc.reverse ++ cs)] := by
  induction cs generalizing acc with
  | nil => simp [splitNlAux]
  | cons c cs ih =>
    have hc : c ≠ '\n' := fun hc => h (hc ▸ List.mem_cons_self c cs)
    have hcs : '\n' ∉ cs := fun hm => h (List.mem_cons_of_mem c hm)
    simp only [splitNlAux, if_neg hc]
    rw [ih (c :: acc) hcs]
    simp

theorem splitNlAux_append (cs₁ : List Char) (h : '\n' ∉ cs₁) (cs₂ acc : List Char) :
    splitNlAux (cs₁ ++ '\n' :: cs₂) acc =
      String.mk (acc.reverse ++ cs₁) :: splitNlAux cs₂ [] := by
  induction cs₁ generalizing acc with
  | nil => simp [splitNlAux]
  | cons c cs ih =>
    have hc : c ≠ '\n' := fun hc => h (hc ▸ List.mem_cons_self c cs)
    have hcs : '\n' ∉ cs := fun hm => h (List.mem_cons_of_mem c hm)
    simp only [List.cons_append, splitNlAux, if_neg hc, List.append_eq]
    rw [ih hcs (c :: acc)]
    simp

theorem noNl_of_mem_splitNlAux : ∀ (cs acc : List Char), '\n' ∉ acc →
    ∀ p ∈ splitNlAux cs acc, noNl p := by
  intro cs
  induction cs with
  | nil =>
    intro acc hacc p hp
    simp only [splitNlAux, List.mem_singleton] at hp
    subst hp
    simpa [noNl, data_mk, List.mem_reverse] using hacc
  | cons c cs ih =>
    intro acc hacc p hp
    by_cases hc : c = '\n'
    · subst hc
      simp [splitNlAux, List.mem_cons] at hp
      rcases hp with hp | hp
      · subst hp; simpa [noNl, data_mk, List.mem_reverse] using hacc
      · exact ih [] (List.not_mem_nil '\n') p hp
    · simp only [splitNlAux, if_neg hc] at hp
      refine ih (c :: acc) ?_ p hp
      intro hm
      rcases List.mem_cons.mp hm with hm | hm
      · exact hc hm.symm
      · exact hacc hm

theorem noNl_stripCr {p : String} (h : noNl p) : noNl (stripCr p) := by
  unfold stripCr
  split
  · intro hm
    exact h (List.dropLast_sublist p.data |>.subset (by simpa [data_mk] using hm))
  · exact h

theorem noNl_of_mem_rustLines {p : String} {s : String} (hp : p ∈ rustLines s) : noNl p := by
  unfold rustLines at hp
  rcases List.mem_map.mp hp with ⟨q, hq, rfl⟩
  have hq' : q ∈ rustSplitRaw s := by
    unfold dropLastEmpty at hq
    split at hq
    · exact (List.dropLast_sublist _).subset hq
    · exact hq
  exact noNl_stripCr (noNl_of_mem_splitNlAux s.data [] (List.not_mem_nil '\n') q hq')

theorem stripCr_eq_self {s : String} (h : noTrailCr s) : stripCr s = s := by
  unfold stripCr
  rw [if_neg h]

theorem rustSplitRaw_joinNl (ls : List String) (hne : ls ≠ [])
    (h : ∀ s ∈ ls, noNl s) : rustSplitRaw (joinNl ls ++ "\n") = ls ++ [""] := by
  induction ls with
  | nil => exact absurd rfl hne
  | cons s rest ih =>
    cases rest with
    | nil =>
      show splitNlAux (s ++ "\n").data [] = [s, ""]
      rw [String.data_append]
      have : ("\n" : String).data = ['\n'] := rfl
      rw [this]
      have := splitNlAux_append s.data (h s (List.mem_cons_self s [])) [] []
      simpa [splitNlAux, mk_data] using this
    | cons s' rest' =>
      show splitNlAux ((s ++ "\n" ++ joinNl (s' :: rest')) ++ "\n").data [] = _
      have hdata : ((s ++ "\n" ++ joinNl (s' :: rest')) ++ "\n").data =
          s.data ++ '\n' :: (joinNl (s' :: rest') ++ "\n").data := by
        simp [String.data_append]
      rw [hdata, splitNlAux_append s.data (h s (List.mem_cons_self s _)) _ []]
      have ihr := ih (by simp) (fun x hx => h x (List.mem_cons_of_mem s hx))
      unfold rustSplitRaw at ihr
      rw [ihr]
      simp [mk_data]

/-- Round trip of the tag-file serialization: provided every line is free of
newlines and does not end in a carriage return, reading the written file back
yields exactly the written lines (an empty list collapses with the singleton
empty line, since both serialize to a bare newline). -/
theorem rustLines_joinNl (ls : List String) (h : ∀ s ∈ ls, noNl s ∧ noTrailCr s) :
    rustLines (joinNl ls ++ "\n") = if ls = [] then [""] else ls := by
  by_cases hne : ls = []
  · subst hne
    simp only [if_pos rfl]
    rfl
  · rw [if_neg hne]
    unfold rustLines
    rw [rustSplitRaw_joinNl ls hne (fun s hs => (h s hs).1)]
    unfold dropLastEmpty
    rw [if_pos (List.getLast?_concat ls), List.dropLast_concat]
    rw [List.map_congr_left (fun a ha => stripCr_eq_self (h a ha).2)]
    exact List.map_id ls

theorem noNl_of_mem_tagFileLines {s : String} {existing : Option String}
    (h : s ∈ tagFileLines existing) : noNl s := by
  cases existing with
  | none => exact absurd h (List.not_mem_nil s)
  | some v => exact noNl_of_mem_rustLines h

/-- Every line of the persisted tag file is an old line or the written tag. -/
theorem writeTagLines_elems (existing : Option String) (action : Action) (tag : String)
    (hnl : noNl tag) (hcr : noTrailCr tag)
    (hex : ∀ l ∈ tagFileLines existing, noTrailCr l) :
    ∀ s ∈ writeTagLines existing action tag, noNl s ∧ noTrailCr s := by
  intro s hs
  rcases mem_writeTagLines hs with h | rfl
  · exact ⟨noNl_of_mem_tagFileLines h, hex s h⟩
  · exact ⟨hnl, hcr⟩

/-- Reading the persisted tag file back yields exactly the normalized tag list
(or the degenerate single empty line when the list became empty). -/
theorem rustLines_writeTagFileContent (existing : Option String) (action : Action)
    (tag : String) (hnl : noNl tag) (hcr : noTrailCr tag)
    (hex : ∀ l ∈ tagFileLines existing, noTrailCr l) :
    rustLines (writeTagFileContent existing action tag) =
      (if writeTagLines existing action tag = [] then [""]
       else writeTagLines existing action tag) := by
  unfold writeTagFileContent
  exact rustLines_joinNl _ (writeTagLines_elems existing action tag hnl hcr hex)

theorem writeTagFileContent_trailNl (existing : Option String) (action : Action)
    (tag : String) : (writeTagFileContent existing action tag).data.getLast? = some '\n' := by
  unfold writeTagFileContent
  rw [String.data_append]
  have : ("\n" : String).data = ['\n'] := rfl
  rw [this]
  exact List.getLast?_concat _

/-- Rust's trim_end on the trailing-whitespace characters. -/
def trimEndStr (s : String) : String :=
  String.mk (s.data.reverse.dropWhile Char.isWhitespace).reverse

/-- Rust's trim on both ends. -/
def trimStr (s : String) : String :=
  String.mk ((s.data.dropWhile Char.isWhitespace).reverse.dropWhile Char.isWhitespace).reverse

/-- Bool prefix test on character lists (Rust's starts_with). -/
def isPrefixChars : List Char → List Char → Bool
  | [], _ => true
  | _ :: _, [] => false
  | a :: as, b :: bs => a == b && isPrefixChars as bs

/-- Bool substring test: does the pattern occur contiguously in the haystack? -/
def containsChars : List Char → List Char → Bool
  | [], pat => isPrefixChars pat []
  | c :: rest, pat => isPrefixChars pat (c :: rest) || containsChars rest pat

/-- Whether the pattern occurs as a contiguous substring of the haystack. -/
def hasSubstring (hay pat : String) : Bool := containsChars hay.data pat.data

/-- Association-list lookup keyed by strings (models a directory lookup). -/
def lookupBy {β : Type} : List (String × β) → String → Option β
  | [], _ => none
  | (k, v) :: rest, key => if k = key then some v else lookupBy rest key

/-- Association-list update keyed by strings; appends when the key is new
(models create_dir_all for a fresh issue directory). -/
def setBy {β : Type} : List (String × β) → String → β → List (String × β)
  | [], key, v => [(key, v)]
  | (k, w) :: rest, key, v =>
    if k = key then (key, v) :: rest else (k, w) :: setBy rest key v

theorem lookupBy_setBy_self {β : Type} (l : List (String × β)) (key : String) (v : β) :
    lookupBy (setBy l key v) key = some v := by
  induction l with
  | nil => simp [setBy, lookupBy]
  | cons p rest ih =>
    by_cases h : p.1 = key
    · simp [setBy, h, lookupBy]
    · cases p with
      | mk k w => simp only at h; simp [setBy, h, lookupBy, ih]

/-- The property files of one issue directory (the slice of the on-disk layout
the claims touch); a value of none models an absent file. -/
structure IssueFiles where
  description : Option String
  tags : Option String
  milestone : Option String
  duedate : Option String
deriving DecidableEq

/-- A fresh issue directory with no property files. -/
def IssueFiles.empty : IssueFiles := ⟨none, none, none, none⟩

/-- The readable property kinds, as the source's Property enum. -/
inductive Property where
  | Description : Property
  | DueDate : Property
  | Tags : Property
  | Milestone : Property
deriving DecidableEq

/-- File contents backing a property. -/
def IssueFiles.get (f : IssueFiles) : Property → Option String
  | .Description => f.description
  | .DueDate => f.duedate
  | .Tags => f.tags
  | .Milestone => f.milestone

/-- New-versus-edit marker for descriptions, as the source's ChangeAction. -/
inductive ChangeAction where
  | New : ChangeAction
  | Edit : ChangeAction
deriving DecidableEq

/-- One property mutation, as the source's CommitProperty enum. -/
inductive CommitProperty where
  | Description (action : ChangeAction) (id : String) (description : String) : CommitProperty
  | Tag (action : Action) (tag : String) : CommitProperty
  | Milestone (action : Action) (milestone : String) : CommitProperty

/-- Uncommitted working-tree changes, split into tracked and untracked paths.
The payload strings are opaque tokens naming the changed paths. -/
structure Worktree where
  tracked : List String
  untracked : List String
deriving DecidableEq

/-- The is_clean check of the git wrapper: no changes of either kind. -/
def Worktree.isClean (w : Worktree) : Bool := w.tracked.isEmpty && w.untracked.isEmpty

/-- One stash-stack entry: the stashed message and the set-aside changes. -/
structure StashEntry where
  message : String
  tracked : List String
  untracked : List String
deriving DecidableEq

/-- The repository state the transaction coordinator manipulates: the commits
reachable from the branch head (newest first, as opaque tokens), the working
tree, and the stash stack. -/
structure Repo where
  history : List String
  worktree : Worktree
  stash : List StashEntry
deriving DecidableEq

/-- The current branch head, when one can be resolved. -/
def Repo.head (r : Repo) : Option String := r.history.head?

/-- git commit: a new commit (identified here by its message) on top of head. -/
def Repo.commitExt (r : Repo) (message : String) : Repo :=
  { r with history := message :: r.history }

/-- git reset --hard sha: move the branch pointer back to the given commit,
discarding tracked working-tree changes (untracked files survive). -/
def resetHard (r : Repo) (sha : String) : Repo :=
  { r with history := r.history.dropWhile (fun c => c ≠ sha),
           worktree := { r.worktree with tracked := [] } }

/-- git stash push --include-untracked (stash_almost_all): set every change
aside under the given message, leaving a clean working tree. -/
def stashAlmostAll (r : Repo) (message : String) : Repo :=
  { r with stash := ⟨message, r.worktree.tracked, r.worktree.untracked⟩ :: r.stash,
           worktree := ⟨[], []⟩ }

/-- git stash pop: restore the most recent stash entry into the working tree. -/
def stashPop (r : Repo) : Repo :=
  match r.stash with
  | [] => r
  | e :: rest =>
    { r with stash := rest,
             worktree := ⟨r.worktree.tracked ++ e.tracked,
                          r.worktree.untracked ++ e.untracked⟩ }

/-- git merge --no-ff -m message sha: one new merge commit on top of head. -/
def mergeNoFF (r : Repo) (message sha : String) : Repo :=
  { r with history := ("merge:" ++ message ++ ":" ++ sha) :: r.history }

/-- The transaction record: head at start and whether changes were stashed. -/
structure Transaction where
  start_sha : String
  stash_before : Bool
deriving DecidableEq

/-- The issue data source: the issue directories, the git repository state and
the optional open transaction. -/
structure DataSource where
  issues : List (String × IssueFiles)
  repo : Repo
  transaction : Option Transaction
deriving DecidableEq

/-- read(id, property): file contents with trailing whitespace stripped; none
when the issue directory or the file is absent. -/
def DataSource.read (ds : DataSource) (id : String) (prop : Property) : Option String :=
  ((lookupBy ds.issues id).bind (fun files => files.get prop)).map trimEndStr

/-- tags(id): the lines of the trimmed tags file, or the empty list. -/
def DataSource.tags (ds : DataSource) (id : String) : List String :=
  match ds.read id .Tags with
  | some v => rustLines (trimStr v)
  | none => []

/-- milestone(id): the trimmed milestone file, when set. -/
def DataSource.milestone (ds : DataSource) (id : String) : Option String :=
  ds.read id .Milestone

/-- id shortened to its first eight characters (short_id in id.rs). -/
def shortId (id : String) : String := String.mk (id.data.take 8)

/-- The commit message the writer derives for a property mutation (the default,
non-strict-compatibility feature branch of source.rs). -/
def commitMessage (targetId : String) : CommitProperty → String
  | .Description .New id _ => "gi: Add issue description\n\ngi new description " ++ id
  | .Description .Edit id _ => "gi: Edit issue description\n\ngit edit description " ++ id
  | .Tag .Add tag =>
    "gi(" ++ shortId targetId ++ "): Add tag " ++ tag ++ "\n\ngi tag add " ++ tag
  | .Tag .Remove tag =>
    "gi(" ++ shortId targetId ++ "): Remove tag " ++ tag ++ "\n\ngi tag remove " ++ tag
  | .Milestone .Add m =>
    "gi(" ++ shortId targetId ++ "): Add milestone " ++ m ++ "\n\ngi milestone add " ++ m
  | .Milestone .Remove m =>
    "gi(" ++ shortId targetId ++ "): Remove milestone " ++ m ++ "\n\ngi milestone remove " ++ m

/-- write_to_file: ensure the issue directory exists, write the property file
(tags are normalized via writeTagFileContent; a milestone Remove deletes the
file), and stage it.  Staging is a git-index effect outside this state model. -/
def DataSource.writeToFile (ds : DataSource) (id : String) (p : CommitProperty) : DataSource :=
  let files := (lookupBy ds.issues id).getD IssueFiles.empty
  let files' :=
    match p with
    | .Description _ _ text => { files with description := some (trimEndStr text ++ "\n") }
    | .Tag action tag => { files with tags := some (writeTagFileContent files.tags action tag) }
    | .Milestone .Add m => { files with milestone := some (m ++ "\n") }
    | .Milestone .Remove _ => { files with milestone := none }
  { ds with issues := setBy ds.issues id files' }

/-- write: the commit-backed writer pairing write_to_file with one commit. -/
def DataSource.write (ds : DataSource) (id : String) (p : CommitProperty) : DataSource :=
  let ds1 := ds.writeToFile id p
  { ds1 with repo := ds1.repo.commitExt (commitMessage id p) }

/-- add_tag: NoChanges when the tag is already present, otherwise one
committed write of a Tag Add mutation. -/
def DataSource.add_tag (ds : DataSource) (id tag : String) : WriteResult × DataSource :=
  if tag ∈ ds.tags id then (.NoChanges, ds)
  else (.Applied, ds.write id (.Tag .Add tag))

/-- remove_tag: Applied with one committed write when the tag is present,
otherwise NoChanges. -/
def DataSource.remove_tag (ds : DataSource) (id tag : String) : WriteResult × DataSource :=
  if tag ∈ ds.tags id then (.Applied, ds.write id (.Tag .Remove tag))
  else (.NoChanges, ds)

/-- add_milestone: NoChanges when the current milestone equals the value,
otherwise one committed write of a Milestone Add mutation. -/
def DataSource.add_milestone (ds : DataSource) (id m : String) : WriteResult × DataSource :=
  match ds.milestone id with
  | some cur =>
    if cur = m then (.NoChanges, ds) else (.Applied, ds.write id (.Milestone .Add m))
  | none => (.Applied, ds.write id (.Milestone .Add m))

/-- remove_milestone: Applied with one committed write deleting the milestone
file when one is set, otherwise NoChanges. -/
def DataSource.remove_milestone (ds : DataSource) (id : String) : WriteResult × DataSource :=
  match ds.milestone id with
  | some m => (.Applied, ds.write id (.Milestone .Remove m))
  | none => (.NoChanges, ds)

/-- close_issue: remove the open tag, add the closed tag, aggregate results. -/
def DataSource.close_issue (ds : DataSource) (id : String) : WriteResult × DataSource :=
  let r1 := ds.remove_tag id "open"
  let r2 := r1.2.add_tag id "closed"
  (WriteResult.ofList [r1.1, r2.1], r2.2)

/-- Failure to roll back a transaction (errors.rs). -/
inductive RollbackError where
  | Unstash (msg : String) : RollbackError
  | Reset (msg : String) : RollbackError
  | ResetUnstash (msg : String) : RollbackError
deriving DecidableEq

/-- Failure to commit a transaction (errors.rs). -/
inductive FinishError where
  | Unstash (msg : String) : FinishError
  | Reset (msg : String) : FinishError
  | ResetUnstash (msg : String) : FinishError
  | MergeUnstash (msg : String) : FinishError
  | Merge (msg : String) : FinishError
deriving DecidableEq

/-- Error during a transaction (errors.rs); the StashingError payload is the
rendered message of the external stashing failure. -/
inductive TransactionError where
  | BareRepository : TransactionError
  | FinishErrorCase (e : FinishError) : TransactionError
  | NotStarted : TransactionError
  | RollBackFailed (e : RollbackError) : TransactionError
  | StashingError (e : String) : TransactionError
deriving DecidableEq

/-- The rendered Display message of a RollbackError, exactly as the
thiserror format strings in errors.rs produce it. -/
def RollbackError.render : RollbackError → String
  | .Unstash s => s ++ "\nFailed to unstash changes.\nUse git stash pop to do it manually."
  | .Reset s =>
    "Failed to reset back to commit " ++ s ++ ".\nUse git reset --hard " ++ s ++ "."
  | .ResetUnstash s =>
    "Failed to reset back to commit " ++ s ++
      ".\nTo restore your data use:\n git reset --hard " ++ s ++ " && git stash pop"

/-- The rendered Display message of a FinishError, exactly as the
thiserror format strings in errors.rs produce it. -/
def FinishError.render : FinishError → String
  | .Unstash s => s ++ "\nFailed to unstash changes.\nUse git stash pop to do it manually."
  | .Reset s =>
    "Failed to reset back to commit " ++ s ++
      ".\nTo restore your repo to previous state, use:\n git reset --hard " ++ s
  | .ResetUnstash s =>
    "Failed to reset back to commit " ++ s ++
      ".\nTo restore your repo state, use:\n git reset --hard " ++ s ++ " && git stash pop"
  | .MergeUnstash s =>
    "Failed to merge issue changes with commit " ++ s ++
      ".\nTo restore your repo to previous state, use:\n git reset --hard " ++ s
  | .Merge s =>
    "Failed to reset back to commit " ++ s ++
      ".\nTo restore your data repo to previous state:\n git reset --hard " ++ s ++
      " && git stash pop"

/-- The rendered Display message of a TransactionError. -/
def TransactionError.render : TransactionError → String
  | .BareRepository => "Can not use bare git repository"
  | .FinishErrorCase e => e.render
  | .NotStarted => "Bug! Transaction not started!"
  | .RollBackFailed e => e.render
  | .StashingError e => e

/-- Oracle supplying the outcome of each external git primitive: none means
the primitive succeeds, some msg means it fails with that message. -/
structure GitEnv where
  resetErr : Option String
  mergeErr : Option String
  stashPopErr : Option String
  stashErr : Option String
deriving DecidableEq

/-- An all-success oracle. -/
def GitEnv.allOk : GitEnv := ⟨none, none, none, none⟩

/-- Outcome of a transaction-coordinator call: success, an error value, or a
Rust panic raised by expect. -/
inductive TxResult where
  | ok : TxResult
  | err (e : TransactionError) : TxResult
  | panicked (msg : String) : TxResult
deriving DecidableEq

/-- start_transaction: resolve the head (BareRepository when impossible, per
the lib.rs variant; the source.rs variant delegates this check to the git
wrapper), record whether the tree is dirty, stash everything when it is, and
record the transaction.  A stash failure returns before the transaction is
recorded. -/
def DataSource.start_transaction (ds : DataSource) (env : GitEnv) : TxResult × DataSource :=
  match ds.repo.head with
  | none => (.err .BareRepository, ds)
  | some start_sha =>
    let stash_before := !ds.repo.worktree.isClean
    if stash_before then
      match env.stashErr with
      | some e => (.err (.StashingError e), ds)
      | none =>
        (.ok, { ds with repo := stashAlmostAll ds.repo "git-issue: Start Transaction",
                        transaction := some ⟨start_sha, true⟩ })
    else (.ok, { ds with transaction := some ⟨start_sha, false⟩ })

/-- rollback_transaction: NotStarted as an error value when no transaction is
open; otherwise hard-reset to start_sha (Reset or ResetUnstash on failure,
depending on a pending stash), then pop the stash when one was taken
(Unstash on failure), and clear the transaction. -/
def DataSource.rollback_transaction (ds : DataSource) (env : GitEnv) : TxResult × DataSource :=
  match ds.transaction with
  | none => (.err .NotStarted, ds)
  | some t =>
    match env.resetErr with
    | some e =>
      (.err (.RollBackFailed (if t.stash_before then .ResetUnstash e else .Reset e)), ds)
    | none =>
      let r1 := resetHard ds.repo t.start_sha
      if t.stash_before then
        match env.stashPopErr with
        | some e => (.err (.RollBackFailed (.Unstash e)), { ds with repo := r1 })
        | none => (.ok, { ds with repo := stashPop r1, transaction := none })
      else (.ok, { ds with repo := r1, transaction := none })

/-- finish_transaction_without_merge: panics via expect when no transaction is
open; otherwise pops the stash when one was taken and clears the transaction. -/
def DataSource.finish_transaction_without_merge (ds : DataSource) (env : GitEnv) :
    TxResult × DataSource :=
  match ds.transaction with
  | none => (.panicked "A started transaction", ds)
  | some t =>
    if t.stash_before then
      match env.stashPopErr with
      | some e => (.err (.FinishErrorCase (.Unstash e)), ds)
      | none => (.ok, { ds with repo := stashPop ds.repo, transaction := none })
    else (.ok, { ds with transaction := none })

/-- finish_transaction: panics via expect when no transaction is open;
otherwise resolve the current head, hard-reset to start_sha (Reset or
ResetUnstash on failure), merge the previous head back as a non-fast-forward
merge (Merge or MergeUnstash on failure, carrying the merge stderr), pop the
stash when one was taken, and clear the transaction. -/
def DataSource.finish_transaction (ds : DataSource) (env : GitEnv) (message : String) :
    TxResult × DataSource :=
  match ds.transaction with
  | none => (.panicked "A started transaction", ds)
  | some t =>
    match ds.repo.head with
    | none => (.err .BareRepository, ds)
    | some sha =>
      match env.resetErr with
      | some e =>
        (.err (.FinishErrorCase (if t.stash_before then .ResetUnstash e else .Reset e)), ds)
      | none =>
        let r1 := resetHard ds.repo t.start_sha
        match env.mergeErr with
        | some out =>
          (.err (.FinishErrorCase (if t.stash_before then .MergeUnstash out else .Merge out)),
            { ds with repo := r1 })
        | none =>
          let r2 := mergeNoFF r1 message sha
          if t.stash_before then
            match env.stashPopErr with
            | some e => (.err (.FinishErrorCase (.Unstash e)), { ds with repo := r2 })
            | none => (.ok, { ds with repo := stashPop r2, transaction := none })
          else (.ok, { ds with repo := r2, transaction := none })

/-- The issue id wrapper of id.rs. -/
structure Id where
  id : String
deriving DecidableEq

/-- Id built From a leaf path: parent directory name concatenated with the
leaf directory name. -/
def Id.fromPath (shard leaf : String) : Id := ⟨shard ++ leaf⟩

/-- Failure to find an issue (errors.rs). -/
inductive FindError where
  | NotFound (needle : String) : FindError
  | MultipleFound (needle : String) (ids : List Id) : FindError
deriving DecidableEq

/-- The issues directory: shard directory names mapped to their leaf
directory names. -/
structure IssuesDir where
  shards : List (String × List String)
deriving DecidableEq

/-- list_dirs on a shard path: its leaf directories, or the empty list when
the shard path does not exist. -/
def listDirs (fs : IssuesDir) (shard : String) : List String :=
  (lookupBy fs.shards shard).getD []

/-- path.exists() for issues/shard/leaf. -/
def pathExists (fs : IssuesDir) (shard leaf : String) : Bool :=
  match lookupBy fs.shards shard with
  | some leaves => decide (leaf ∈ leaves)
  | none => false

/-- The first two characters of a needle (the shard slice needle[0..2]). -/
def shardOf (needle : String) : String := String.mk (needle.data.take 2)

/-- The remainder of a needle after the shard slice (needle[2..]). -/
def leafOf (needle : String) : String := String.mk (needle.data.drop 2)

/-- The two-character and longer branches of find_issue.  Length 2: the shard
with that exact name supplies the candidates.  Otherwise (length at least 3 in
practice): short-circuit success when issues/needle[0..2]/needle[2..] exists,
else candidates are the ids under the shard named by the first two characters
that start with the whole needle. -/
def find_issue_from2 (fs : IssuesDir) (needle : String) : Except FindError Id :=
  if needle.length = 2 then
    match lookupBy fs.shards needle with
    | some leaves =>
      match leaves with
      | [] => .error (.NotFound needle)
      | [l] => .ok (Id.fromPath needle l)
      | _ => .error (.MultipleFound needle (leaves.map (Id.fromPath needle)))
    | none => .error (.NotFound needle)
  else
    if pathExists fs (shardOf needle) (leafOf needle) then .ok ⟨needle⟩
    else
      let ids := ((listDirs fs (shardOf needle)).map (Id.fromPath (shardOf needle))).filter
        (fun i => isPrefixChars needle.data i.id.data)
      match ids with
      | [] => .error (.NotFound needle)
      | [i] => .ok i
      | _ => .error (.MultipleFound needle ids)

/-- find_issue: the one-character branch recurses into the single shard when
exactly one exists (shard names have two characters, so the recursion is the
two-plus dispatch applied once) and reports every issue as a candidate
otherwise; longer needles go to the two-plus dispatch directly. -/
def find_issue (fs : IssuesDir) (needle : String) : Except FindError Id :=
  if needle.length = 1 then
    match fs.shards with
    | [p] => find_issue_from2 fs p.1
    | _ =>
      .error (.MultipleFound needle
        (fs.shards.flatMap (fun p => p.2.map (Id.fromPath p.1))))
  else find_issue_from2 fs needle

theorem head_dropWhile_mem (l : List String) (sha : String) (h : sha ∈ l) :
    (l.dropWhile (fun c => c ≠ sha)).head? = some sha := by
  induction l with
  | nil => exact absurd h (List.not_mem_nil sha)
  | cons c rest ih =>
    by_cases hc : c = sha
    · subst hc; simp [List.dropWhile]
    · have hmem : sha ∈ rest := by
        rcases List.mem_cons.mp h with h1 | h1
        · exact absurd h1.symm hc
        · exact h1
      simpa [List.dropWhile, hc] using ih hmem

/-- Example states used to witness the transaction theorems. -/
def repoTx : Repo :=
  ⟨["c2", "c1", "s0"], ⟨[], []⟩, [⟨"git-issue: Start Transaction", ["edit"], ["new-file"]⟩]⟩

/-- A data source with an open transaction that stashed beforehand. -/
def dsTx : DataSource := ⟨[], repoTx, some ⟨"s0", true⟩⟩

/-- A data source with no open transaction. -/
def dsIdle : DataSource := ⟨[], ⟨["c0"], ⟨[], []⟩, []⟩, none⟩

/-- C1. For every open transaction recorded with start commit start_sha, a
successful rollback_transaction hard-resets the branch to start_sha: the head
equals the recorded pre-transaction commit, every intermediate commit is
discarded from the branch, the stash is popped exactly when stash_before was
recorded true, and the transaction slot is cleared. -/
theorem claim1_rollback_atomicity (ds : DataSource) (t : Transaction) (env : GitEnv)
    (htx : ds.transaction = some t) (hreset : env.resetErr = none)
    (hpop : t.stash_before = true → env.stashPopErr = none)
    (hmem : t.start_sha ∈ ds.repo.history) :
    (ds.rollback_transaction env).1 = .ok ∧
    (ds.rollback_transaction env).2.repo.history =
      ds.repo.history.dropWhile (fun c => c ≠ t.start_sha) ∧
    (ds.rollback_transaction env).2.repo.head = some t.start_sha ∧
    (ds.rollback_transaction env).2.repo.stash =
      (if t.stash_before then ds.repo.stash.tail else ds.repo.stash) ∧
    (ds.rollback_transaction env).2.transaction = none := by
  obtain ⟨sha, sb⟩ := t
  unfold DataSource.rollback_transaction
  rw [htx, hreset]
  cases sb with
  | false =>
    refine ⟨?_, ?_, ?_, ?_, ?_⟩ <;>
      first
      | trivial
      | exact head_dropWhile_mem ds.repo.history sha hmem
  | true =>
    rw [hpop rfl]
    cases hst : ds.repo.stash with
    | nil =>
      simp only [stashPop, resetHard, hst]
      refine ⟨?_, ?_, ?_, ?_, ?_⟩ <;>
        first
        | trivial
        | exact head_dropWhile_mem ds.repo.history sha hmem
    | cons e rest =>
      simp only [stashPop, resetHard, hst]
      refine ⟨?_, ?_, ?_, ?_, ?_⟩ <;>
        first
        | trivial
        | exact head_dropWhile_mem ds.repo.history sha hmem

/-- C1 witness: a concrete rollback of a transaction opened at commit s0 with
a pending stash. -/
theorem claim1_witness :
    dsTx.transaction = some ⟨"s0", true⟩ ∧
    GitEnv.allOk.resetErr = none ∧
    "s0" ∈ dsTx.repo.history ∧
    (dsTx.rollback_transaction GitEnv.allOk).1 = .ok ∧
    (dsTx.rollback_transaction GitEnv.allOk).2.repo.history =
      dsTx.repo.history.dropWhile (fun c => c ≠ "s0") ∧
    (dsTx.rollback_transaction GitEnv.allOk).2.repo.head = some "s0" ∧
    (dsTx.rollback_transaction GitEnv.allOk).2.repo.stash =
      (if (true : Bool) then dsTx.repo.stash.tail else dsTx.repo.stash) ∧
    (dsTx.rollback_transaction GitEnv.allOk).2.transaction = none := by
  have h := claim1_rollback_atomicity dsTx ⟨"s0", true⟩ GitEnv.allOk (by decide) (by decide)
    (fun _ => by decide) (by decide)
  exact ⟨by decide, by decide, by decide, h.1, h.2.1, h.2.2.1, h.2.2.2.1, h.2.2.2.2⟩

/-- C3. start_transaction fails with BareRepository when no head resolves;
with a resolvable head and a dirty tree it stashes every change (tracked and
untracked) under the fixed message and records stash_before true; with a
clean tree it records stash_before false and performs no stash. -/
theorem claim3_start_transaction (ds : DataSource) (env : GitEnv) :
    (ds.repo.head = none → ds.start_transaction env = (.err .BareRepository, ds)) ∧
    (∀ sha, ds.repo.head = some sha → ds.repo.worktree.isClean = false →
      env.stashErr = none →
      ds.start_transaction env =
        (.ok, { ds with repo := stashAlmostAll ds.repo "git-issue: Start Transaction",
                        transaction := some ⟨sha, true⟩ }) ∧
      (stashAlmostAll ds.repo "git-issue: Start Transaction").stash =
        ⟨"git-issue: Start Transaction", ds.repo.worktree.tracked,
          ds.repo.worktree.untracked⟩ :: ds.repo.stash ∧
      (stashAlmostAll ds.repo "git-issue: Start Transaction").worktree = ⟨[], []⟩) ∧
    (∀ sha, ds.repo.head = some sha → ds.repo.worktree.isClean = true →
      ds.start_transaction env = (.ok, { ds with transaction := some ⟨sha, false⟩ })) := by
  refine ⟨?_, ?_, ?_⟩
  · intro h
    unfold DataSource.start_transaction
    rw [h]
  · intro sha hh hdirty hstash
    unfold DataSource.start_transaction
    rw [hh]
    simp only [hdirty, hstash, Bool.not_false, if_true]
    refine ⟨?_, ?_, ?_⟩ <;> trivial
  · intro sha hh hclean
    unfold DataSource.start_transaction
    rw [hh]
    simp only [hclean, Bool.not_true, Bool.false_eq_true, if_false]

/-- C3 witness: a bare repository, a dirty tree and a clean tree, each with a
concrete state. -/
theorem claim3_witness :
    (DataSource.start_transaction ⟨[], ⟨[], ⟨[], []⟩, []⟩, none⟩ GitEnv.allOk =
      (.err .BareRepository, ⟨[], ⟨[], ⟨[], []⟩, []⟩, none⟩)) ∧
    (DataSource.start_transaction ⟨[], ⟨["c0"], ⟨["edit"], ["new-file"]⟩, []⟩, none⟩
        GitEnv.allOk =
      (.ok, ⟨[], ⟨["c0"], ⟨[], []⟩,
        [⟨"git-issue: Start Transaction", ["edit"], ["new-file"]⟩]⟩,
        some ⟨"c0", true⟩⟩)) ∧
    (DataSource.start_transaction ⟨[], ⟨["c0"], ⟨[], []⟩, []⟩, none⟩ GitEnv.allOk =
      (.ok, ⟨[], ⟨["c0"], ⟨[], []⟩, []⟩, some ⟨"c0", false⟩⟩)) := by
  refine ⟨?_, ?_, ?_⟩
  · exact (claim3_start_transaction ⟨[], ⟨[], ⟨[], []⟩, []⟩, none⟩ GitEnv.allOk).1 (by decide)
  · exact ((claim3_start_transaction ⟨[], ⟨["c0"], ⟨["edit"], ["new-file"]⟩, []⟩, none⟩
      GitEnv.allOk).2.1 "c0" (by decide) (by decide) (by decide)).1
  · exact (claim3_start_transaction ⟨[], ⟨["c0"], ⟨[], []⟩, []⟩, none⟩
      GitEnv.allOk).2.2 "c0" (by decide) (by decide)

/-- C9 counterexample: with no open transaction, finish_transaction and
finish_transaction_without_merge panic through expect instead of reporting
the NotStarted error value, so the claim fails for them as stated. -/
theorem claim9_counterexample :
    (dsIdle.finish_transaction GitEnv.allOk "msg").1 = .panicked "A started transaction" ∧
    (dsIdle.finish_transaction_without_merge GitEnv.allOk).1 =
      .panicked "A started transaction" ∧
    (dsIdle.finish_transaction GitEnv.allOk "msg").1 ≠ .err .NotStarted ∧
    (dsIdle.finish_transaction_without_merge GitEnv.allOk).1 ≠ .err .NotStarted := by
  decide

/-- C9 amended: with no open transaction, rollback_transaction reports the
NotStarted coordinator-misuse error as an error value, leaving the state
untouched, while the two finish variants panic through expect (also with no
reset, merge or stash performed). -/
theorem claim9_not_started (ds : DataSource) (env : GitEnv) (message : String)
    (h : ds.transaction = none) :
    ds.rollback_transaction env = (.err .NotStarted, ds) ∧
    ds.finish_transaction env message = (.panicked "A started transaction", ds) ∧
    ds.finish_transaction_without_merge env = (.panicked "A started transaction", ds) := by
  unfold DataSource.rollback_transaction DataSource.finish_transaction
    DataSource.finish_transaction_without_merge
  rw [h]
  exact ⟨rfl, rfl, rfl⟩

/-- C9 witness: the amended behavior at a concrete idle data source. -/
theorem claim9_witness :
    dsIdle.transaction = none ∧
    dsIdle.rollback_transaction GitEnv.allOk = (.err .NotStarted, dsIdle) ∧
    dsIdle.finish_transaction GitEnv.allOk "msg" =
      (.panicked "A started transaction", dsIdle) ∧
    dsIdle.finish_transaction_without_merge GitEnv.allOk =
      (.panicked "A started transaction", dsIdle) := by
  have h := claim9_not_started dsIdle GitEnv.allOk "msg" (by decide)
  exact ⟨by decide, h.1, h.2.1, h.2.2⟩

/-- An issue with description "Foo Bar", tags file "open\n", milestone "Q1". -/
def dsIssue : DataSource :=
  ⟨[("aabbccddeeff", ⟨some "Foo Bar\n", some "open\n", some "Q1\n", none⟩)],
    ⟨["c1", "c0"], ⟨[], []⟩, []⟩, none⟩

/-- An issue with no milestone file and tags file "closed\n". -/
def dsClosed : DataSource :=
  ⟨[("aabbccddeeff", ⟨some "Foo Bar\n", some "closed\n", none, none⟩)],
    ⟨["c1", "c0"], ⟨[], []⟩, []⟩, none⟩

/-- C4. Redundant mutations change nothing: add_tag of a present tag,
remove_tag of an absent tag, and add_milestone of the current milestone all
return NoChanges and leave the data source (files, history, head) untouched. -/
theorem claim4_idempotent_nochanges (ds : DataSource) (id tag m : String) :
    (tag ∈ ds.tags id → ds.add_tag id tag = (.NoChanges, ds)) ∧
    (tag ∉ ds.tags id → ds.remove_tag id tag = (.NoChanges, ds)) ∧
    (ds.milestone id = some m → ds.add_milestone id m = (.NoChanges, ds)) := by
  refine ⟨?_, ?_, ?_⟩
  · intro h
    unfold DataSource.add_tag
    rw [if_pos h]
  · intro h
    unfold DataSource.remove_tag
    rw [if_neg h]
  · intro h
    unfold DataSource.add_milestone
    rw [h]
    simp

/-- C4 witness: redundant add_tag, remove_tag and add_milestone on a concrete
issue leave the state unchanged. -/
theorem claim4_witness :
    "open" ∈ dsIssue.tags "aabbccddeeff" ∧
    "absent" ∉ dsIssue.tags "aabbccddeeff" ∧
    dsIssue.milestone "aabbccddeeff" = some "Q1" ∧
    dsIssue.add_tag "aabbccddeeff" "open" = (.NoChanges, dsIssue) ∧
    dsIssue.remove_tag "aabbccddeeff" "absent" = (.NoChanges, dsIssue) ∧
    dsIssue.add_milestone "aabbccddeeff" "Q1" = (.NoChanges, dsIssue) := by
  have h := claim4_idempotent_nochanges dsIssue "aabbccddeeff" "open" "Q1"
  have h' := claim4_idempotent_nochanges dsIssue "aabbccddeeff" "absent" "Q1"
  exact ⟨by decide, by decide, by decide, h.1 (by decide), h'.2.1 (by decide),
    h.2.2 (by decide)⟩

/-- C5. remove_milestone with a milestone set deletes the file (a subsequent
milestone read yields none), commits once and returns Applied; with no
milestone set it returns NoChanges and leaves the state untouched. -/
theorem claim5_remove_milestone (ds : DataSource) (id m : String) :
    (ds.milestone id = some m →
      (ds.remove_milestone id).1 = .Applied ∧
      (ds.remove_milestone id).2.milestone id = none ∧
      (ds.remove_milestone id).2.repo.history =
        commitMessage id (.Milestone .Remove m) :: ds.repo.history) ∧
    (ds.milestone id = none → ds.remove_milestone id = (.NoChanges, ds)) := by
  constructor
  · intro h
    unfold DataSource.remove_milestone
    rw [h]
    refine ⟨rfl, ?_, rfl⟩
    unfold DataSource.write DataSource.writeToFile DataSource.milestone DataSource.read
    simp only [Repo.commitExt, lookupBy_setBy_self, Option.bind_some]
    rfl
  · intro h
    unfold DataSource.remove_milestone
    rw [h]

/-- C5 witness: removing the milestone of a concrete issue deletes it and a
second removal reports NoChanges. -/
theorem claim5_witness :
    dsIssue.milestone "aabbccddeeff" = some "Q1" ∧
    (dsIssue.remove_milestone "aabbccddeeff").1 = .Applied ∧
    (dsIssue.remove_milestone "aabbccddeeff").2.milestone "aabbccddeeff" = none ∧
    dsClosed.milestone "aabbccddeeff" = none ∧
    dsClosed.remove_milestone "aabbccddeeff" = (.NoChanges, dsClosed) := by
  have h := (claim5_remove_milestone dsIssue "aabbccddeeff" "Q1").1 (by decide)
  have h' := (claim5_remove_milestone dsClosed "aabbccddeeff" "Q1").2 (by decide)
  exact ⟨by decide, h.1, h.2.1, by decide, h'⟩

/-- C10. The aggregation of write results is Applied exactly when one element
is Applied (NoChanges on the empty list), and close_issue accordingly returns
NoChanges exactly when the issue already lacked the open tag and already had
the closed tag, Applied otherwise. -/
theorem claim10_close_issue_aggregation :
    (∀ l : List WriteResult, WriteResult.ofList l = .Applied ↔ .Applied ∈ l) ∧
    WriteResult.ofList [] = .NoChanges ∧
    (∀ (ds : DataSource) (id : String),
      ((ds.close_issue id).1 = .NoChanges ↔
        ("open" ∉ ds.tags id ∧ "closed" ∈ ds.tags id)) ∧
      ((ds.close_issue id).1 = .Applied ↔
        ¬ ("open" ∉ ds.tags id ∧ "closed" ∈ ds.tags id))) := by
  have hof : ∀ l : List WriteResult, WriteResult.ofList l = .Applied ↔ .Applied ∈ l := by
    intro l
    unfold WriteResult.ofList
    constructor
    · intro h
      by_cases hany : l.any (fun r => r == .Applied) = true
      · rcases List.any_eq_true.mp hany with ⟨r, hr, hb⟩
        rcases r with _ | _
        · exact hr
        · exact absurd hb (by decide)
      · rw [if_neg hany] at h
        exact absurd h (by decide)
    · intro h
      have : l.any (fun r => r == .Applied) = true :=
        List.any_eq_true.mpr ⟨.Applied, h, by decide⟩
      rw [if_pos this]
  refine ⟨hof, by decide, ?_⟩
  intro ds id
  by_cases hopen : "open" ∈ ds.tags id
  · have happ : (ds.close_issue id).1 = .Applied := by
      unfold DataSource.close_issue DataSource.remove_tag
      rw [if_pos hopen]
      rcases hlt : (DataSource.write ds id (.Tag .Remove "open")).add_tag id "closed" with ⟨r2, ds2⟩
      simp [WriteResult.ofList]
    constructor
    · constructor
      · intro h; rw [happ] at h; exact absurd h (by decide)
      · intro h; exact absurd hopen h.1
    · constructor
      · intro _; intro hc; exact hc.1 hopen
      · intro _; exact happ
  · by_cases hclosed : "closed" ∈ ds.tags id
    · have hnoc : (ds.close_issue id).1 = .NoChanges := by
        unfold DataSource.close_issue DataSource.remove_tag DataSource.add_tag
        rw [if_neg hopen]
        simp only
        rw [if_pos hclosed]
        rfl
      constructor
      · constructor
        · intro _; exact ⟨hopen, hclosed⟩
        · intro _; exact hnoc
      · constructor
        · intro h; rw [hnoc] at h; exact absurd h (by decide)
        · intro h; exact absurd ⟨hopen, hclosed⟩ h
    · have happ : (ds.close_issue id).1 = .Applied := by
        unfold DataSource.close_issue DataSource.remove_tag DataSource.add_tag
        rw [if_neg hopen]
        simp only
        rw [if_neg hclosed]
        simp [WriteResult.ofList]
      constructor
      · constructor
        · intro h; rw [happ] at h; exact absurd h (by decide)
        · intro h; exact absurd h.2 hclosed
      · constructor
        · intro _; intro hc; exact hclosed hc.2
        · intro _; exact happ

/-- C2. Evaluation at the failing input: finish_transaction with a pending
stash and a failing merge returns the MergeUnstash variant, yet its rendered
message contains neither the literal recovery command git stash pop (a stash
is pending and must be popped manually) nor the reset command naming the
start commit s0; the merge stderr is spliced where the commit should be.  The
Merge variant (no stash pending) conversely does render git stash pop. -/
theorem claim2_recovery_message_bug :
    (dsTx.finish_transaction ⟨none, some "boom", none, none⟩ "msg").1 =
      .err (.FinishErrorCase (.MergeUnstash "boom")) ∧
    hasSubstring (TransactionError.render (.FinishErrorCase (.MergeUnstash "boom")))
      "git stash pop" = false ∧
    hasSubstring (TransactionError.render (.FinishErrorCase (.MergeUnstash "boom")))
      "git reset --hard s0" = false ∧
    hasSubstring (TransactionError.render (.FinishErrorCase (.MergeUnstash "boom")))
      "git reset --hard boom" = true ∧
    hasSubstring (TransactionError.render (.FinishErrorCase (.Merge "boom")))
      "git stash pop" = true := by
  decide

/-- C6 counterexample: writing the tag "a\nc" (which embeds a newline) onto a
file holding the single tag "b" persists "a\nc\nb\n", whose lines a, c, b are
not sorted ascending, and the written tag spans two lines.  The claim, which
quantifies over every add/remove sequence, fails at this input. -/
theorem claim6_counterexample :
    writeTagFileContent (some "b\n") Action.Add "a\nc" = "a\nc\nb\n" ∧
    rustLines (writeTagFileContent (some "b\n") Action.Add "a\nc") = ["a", "c", "b"] ∧
    ¬ (rustLines (writeTagFileContent (some "b\n") Action.Add "a\nc")).Sorted strLe := by
  decide

/-- C6 amended: after every tag write the persisted file is the one-tag-per-
line serialization (with a single trailing newline) of a strictly sorted,
duplicate-free tag list; provided the written tag contains no newline and no
trailing carriage return and the pre-existing lines carry no trailing
carriage return, the file's own lines are strictly sorted ascending with no
duplicates (an emptied tag list persists as one empty line). -/
theorem claim6_tag_file_normalized (existing : Option String) (action : Action)
    (tag : String) (hnl : noNl tag) (hcr : noTrailCr tag)
    (hex : ∀ l ∈ tagFileLines existing, noTrailCr l) :
    (writeTagLines existing action tag).Sorted strLt ∧
    (writeTagLines existing action tag).Nodup ∧
    writeTagFileContent existing action tag =
      joinNl (writeTagLines existing action tag) ++ "\n" ∧
    rustLines (writeTagFileContent existing action tag) =
      (if writeTagLines existing action tag = [] then [""]
       else writeTagLines existing action tag) ∧
    (rustLines (writeTagFileContent existing action tag)).Sorted strLt ∧
    (rustLines (writeTagFileContent existing action tag)).Nodup ∧
    (writeTagFileContent existing action tag).data.getLast? = some '\n' := by
  have hsorted := writeTagLines_sorted existing action tag
  have hnodup := writeTagLines_nodup existing action tag
  have hround := rustLines_writeTagFileContent existing action tag hnl hcr hex
  refine ⟨hsorted, hnodup, rfl, hround, ?_, ?_, writeTagFileContent_trailNl existing action tag⟩
  · rw [hround]
    by_cases hempty : writeTagLines existing action tag = []
    · rw [if_pos hempty]
      exact List.sorted_singleton ""
    · rw [if_neg hempty]
      exact hsorted
  · rw [hround]
    by_cases hempty : writeTagLines existing action tag = []
    · rw [if_pos hempty]
      exact List.nodup_singleton ""
    · rw [if_neg hempty]
      exact hnodup

/-- C6 witness: adding the ordinary tag "foo" to a file holding "open". -/
theorem claim6_witness :
    noNl "foo" ∧ noTrailCr "foo" ∧
    (∀ l ∈ tagFileLines (some "open\n"), noTrailCr l) ∧
    writeTagLines (some "open\n") Action.Add "foo" = ["foo", "open"] ∧
    (writeTagLines (some "open\n") Action.Add "foo").Sorted strLt ∧
    rustLines (writeTagFileContent (some "open\n") Action.Add "foo") =
      (if writeTagLines (some "open\n") Action.Add "foo" = [] then [""]
       else writeTagLines (some "open\n") Action.Add "foo") ∧
    (writeTagFileContent (some "open\n") Action.Add "foo").data.getLast? = some '\n' := by
  have h := claim6_tag_file_normalized (some "open\n") Action.Add "foo"
    (by decide) (by decide) (by decide)
  exact ⟨by decide, by decide, by decide, by decide, h.1, h.2.2.2.1, h.2.2.2.2.2.2⟩

theorem isPrefixChars_refl (l : List Char) : isPrefixChars l l = true := by
  induction l with
  | nil => rfl
  | cons c cs ih => simp [isPrefixChars, ih]

theorem shard_leaf_eq (s : String) : shardOf s ++ leafOf s = s := by
  apply strData_inj
  rw [String.data_append]
  simp [shardOf, leafOf, data_mk]

/-- An issues directory with the single shard ab holding the single leaf xyz
(one issue abxyz). -/
def fsSingle : IssuesDir := ⟨[("ab", ["xyz"])]⟩

/-- An issues directory whose shard ab holds the two leaves xy and xyz (two
issues abxy and abxyz sharing the prefix abxy). -/
def fsShared : IssuesDir := ⟨[("ab", ["xy", "xyz"])]⟩

/-- C8. A needle of length at least three whose exact two-level path exists is
returned as the full identifier itself, with no further validation: the
theorem holds for every issues directory, including ones where other issues
share the needle as a prefix. -/
theorem claim8_exact_path_bypass (fs : IssuesDir) (needle : String)
    (hlen : 3 ≤ needle.length)
    (hpath : pathExists fs (shardOf needle) (leafOf needle) = true) :
    find_issue fs needle = .ok ⟨needle⟩ := by
  have h1 : needle.length ≠ 1 := by omega
  have h2 : needle.length ≠ 2 := by omega
  unfold find_issue find_issue_from2
  rw [if_neg h1, if_neg h2, if_pos hpath]

/-- C8 witness: the needle abxy matches an existing path and is returned as an
id although the distinct issue abxyz shares it as a prefix and the needle is
far shorter than a commit hash. -/
theorem claim8_witness :
    3 ≤ ("abxy" : String).length ∧
    pathExists fsShared (shardOf "abxy") (leafOf "abxy") = true ∧
    find_issue fsShared "abxy" = .ok ⟨"abxy"⟩ := by
  exact ⟨by decide, by decide, claim8_exact_path_bypass fsShared "abxy" (by decide) (by decide)⟩

/-- C7 counterexample: in a directory whose shard ab holds exactly one leaf
xyz, the needle abq (length three, first two characters naming that shard)
does not resolve to the single issue: find_issue reports NotFound, because
the candidate filter requires the issue id to start with the whole needle.
The claim as stated (resolution regardless of how the needle continues)
fails at this input. -/
theorem claim7_counterexample :
    lookupBy fsSingle.shards "ab" = some ["xyz"] ∧
    find_issue fsSingle "abq" = .error (.NotFound "abq") ∧
    find_issue fsSingle "abq" ≠ .ok ⟨"abxyz"⟩ := by
  refine ⟨by decide, ?_, ?_⟩
  · rfl
  · intro h
    exact Except.noConfusion h

/-- C7 amended: for a needle of length at least three whose first two
characters name a shard with exactly one leaf, find_issue resolves to that
single issue's identifier exactly when the identifier starts with the whole
needle, and reports NotFound otherwise. -/
theorem claim7_single_leaf_resolution (fs : IssuesDir) (needle leaf : String)
    (hlen : 3 ≤ needle.length)
    (hshard : lookupBy fs.shards (shardOf needle) = some [leaf]) :
    (isPrefixChars needle.data (Id.fromPath (shardOf needle) leaf).id.data = true →
      find_issue fs needle = .ok (Id.fromPath (shardOf needle) leaf)) ∧
    (isPrefixChars needle.data (Id.fromPath (shardOf needle) leaf).id.data = false →
      find_issue fs needle = .error (.NotFound needle)) := by
  have h1 : needle.length ≠ 1 := by omega
  have h2 : needle.length ≠ 2 := by omega
  have hld : listDirs fs (shardOf needle) = [leaf] := by
    unfold listDirs
    rw [hshard]
    rfl
  unfold find_issue find_issue_from2
  rw [if_neg h1, if_neg h2]
  by_cases heq : leafOf needle = leaf
  · have hne : needle = shardOf needle ++ leaf := by rw [← heq, shard_leaf_eq]
    have hid : (Id.fromPath (shardOf needle) leaf).id = needle := hne.symm
    have hpe : pathExists fs (shardOf needle) (leafOf needle) = true := by
      unfold pathExists
      rw [hshard]
      simp [heq]
    rw [if_pos hpe]
    constructor
    · intro _
      have : (⟨needle⟩ : Id) = Id.fromPath (shardOf needle) leaf := by
        unfold Id.fromPath
        exact congrArg Id.mk hne
      rw [this]
    · intro hpre
      rw [hid] at hpre
      rw [isPrefixChars_refl needle.data] at hpre
      exact absurd hpre (by decide)
  · have hpe : pathExists fs (shardOf needle) (leafOf needle) = false := by
      unfold pathExists
      rw [hshard]
      simp [heq]
    rw [hpe]
    simp only [Bool.false_eq_true, if_false, hld]
    constructor
    · intro hpre
      simp only [List.map_cons, List.map_nil, List.filter_cons, List.filter_nil, hpre,
        if_pos, if_true]
    · intro hpre
      simp only [List.map_cons, List.map_nil, List.filter_cons, List.filter_nil, hpre,
        Bool.false_eq_true, if_false]

/-- C7 witness: with the single issue abxyz under shard ab, the needle abx (a
prefix of the id) resolves to abxyz, while the needle abq (not a prefix)
reports NotFound. -/
theorem claim7_witness :
    3 ≤ ("abx" : String).length ∧
    lookupBy fsSingle.shards (shardOf "abx") = some ["xyz"] ∧
    find_issue fsSingle "abx" = .ok (Id.fromPath (shardOf "abx") "xyz") ∧
    find_issue fsSingle "abq" = .error (.NotFound "abq") := by
  refine ⟨by decide, by decide, ?_, ?_⟩
  · exact (claim7_single_leaf_resolution fsSingle "abx" "xyz" (by decide) (by decide)).1
      (by decide)
  · exact (claim7_single_leaf_resolution fsSingle "abq" "xyz" (by decide) (by decide)).2
      (by decide)

end GitIssue
